import Mathlib

/-!
Verification of the static documentation server in `docs/serve_docs.py`.

The script (29 lines) defines
  `PORT = 8088`, `DIRECTORY = Path(__file__).parent`,
  `class Handler(http.server.SimpleHTTPRequestHandler)` constructed with
  `directory=str(DIRECTORY)`, and
  `main()` which runs `with socketserver.TCPServer(("", PORT), Handler) as httpd:`
  prints a startup message, calls `webbrowser.open(...)`, and wraps only
  `httpd.serve_forever()` in `try/except KeyboardInterrupt`.

The request-handling semantics the script inherits are those of CPython 3.11's
`http.server.SimpleHTTPRequestHandler` (the interpreter this repository runs
under); the definitions below are shallow embeddings of those library
functions, translated from `/usr/lib/python3.11/http/server.py`,
`posixpath.py`, `genericpath.py`, `urllib/parse.py` and `mimetypes.py`.

Modelling conventions:
* file contents and request paths are Lean `String`s (kernel-level lists of
  characters); percent-decoding maps a `%XX` escape to the character with code
  point `XX`, which coincides with CPython's `urllib.parse.unquote` on all
  ASCII data (full UTF-8 re-decoding of multi-byte sequences is not modelled);
* the filesystem is an explicit tree; permission errors and concurrent
  mutation are out of scope (the spec's claims under test do not involve them);
* conditional request headers (`If-Modified-Since`) are not modelled: requests
  are plain `GET`/`HEAD`/other-method requests.
-/

/-! ### Character and string helpers (CPython `str` operations used) -/

/-- Characters stripped by Python `str.rstrip()` (ASCII whitespace; the Unicode
whitespace extension is irrelevant to the paths modelled here). -/
def isPySpace (c : Char) : Bool :=
  c = ' ' || c = '\t' || c = '\n' || c = '\r' || c = '\x0b' || c = '\x0c'

/-- `path.split(q, 1)[0]`: the characters strictly before the first occurrence
of `q`. -/
def takeUntilChar (q : Char) : List Char → List Char
  | [] => []
  | c :: cs => if c = q then [] else c :: takeUntilChar q cs

/-- Split at the first occurrence of `q`: returns the part before it and,
if `q` occurs, the part after it (Python `s.split(q, 1)`). -/
def splitOnce (q : Char) : List Char → List Char × Option (List Char)
  | [] => ([], none)
  | c :: cs =>
    if c = q then ([], some cs)
    else
      let r := splitOnce q cs
      (c :: r.1, r.2)

/-- Python `str.rstrip()` on a character list. -/
def rstripChars (l : List Char) : List Char :=
  (l.reverse.dropWhile isPySpace).reverse

/-- The last character of a list, if any (used for `str.endswith` on a single
character). -/
def lastChar? (l : List Char) : Option Char :=
  l.reverse.head?

/-- `s.endswith('/')`. -/
def endswithSlash (l : List Char) : Bool :=
  lastChar? l == some '/'

/-- Value of a hexadecimal digit, as used by `urllib.parse.unquote`. -/
def hexVal (c : Char) : Option Nat :=
  if '0' ≤ c ∧ c ≤ '9' then some (c.toNat - 48)
  else if 'a' ≤ c ∧ c ≤ 'f' then some (c.toNat - 87)
  else if 'A' ≤ c ∧ c ≤ 'F' then some (c.toNat - 55)
  else none

/-- `urllib.parse.unquote`: each valid `%XX` escape becomes the character with
code `XX`; an invalid escape is kept literally (Python keeps `'%' + item`). -/
def unquoteChars : List Char → List Char
  | [] => []
  | '%' :: h1 :: h2 :: rest =>
    match hexVal h1, hexVal h2 with
    | some a, some b => Char.ofNat (16 * a + b) :: unquoteChars rest
    | _, _ => '%' :: unquoteChars (h1 :: h2 :: rest)
  | c :: cs => c :: unquoteChars cs

/-- Python `str.split(sep)` semantics: `"".split('/') = [""]`,
`"/".split('/') = ["", ""]`. Returns current chunk and remaining chunks. -/
def splitCharAux (q : Char) : List Char → List Char × List (List Char)
  | [] => ([], [])
  | c :: cs =>
    let r := splitCharAux q cs
    if c = q then ([], r.1 :: r.2) else (c :: r.1, r.2)

/-- Python `str.split(sep)` on a character list. -/
def splitChar (q : Char) (l : List Char) : List (List Char) :=
  (splitCharAux q l).1 :: (splitCharAux q l).2

/-- Python `sep.join(parts)`. -/
def joinChar (q : Char) : List (List Char) → List Char
  | [] => []
  | [x] => x
  | x :: xs => x ++ q :: joinChar q xs

/-- ASCII lowercasing of one character (Python `str.lower` restricted to
ASCII, which covers every extension in the MIME tables). -/
def lowerChar (c : Char) : Char :=
  if 65 ≤ c.toNat ∧ c.toNat ≤ 90 then Char.ofNat (c.toNat + 32) else c

/-- ASCII `str.lower`. -/
def lowerStr (s : String) : String :=
  ⟨s.data.map lowerChar⟩

/-! ### `posixpath.normpath` (CPython 3.11, `posixpath.py`) -/

/-- The component loop of `posixpath.normpath`: skip `''` and `'.'`; append a
component unless it is `'..'` that can cancel a previous real component; a
`'..'` at an absolute root is dropped. `iniSlashes` is `initial_slashes`
(0, 1 or 2) and `acc` is `new_comps`. -/
def normpathComps (iniSlashes : Nat) : List (List Char) → List (List Char) → List (List Char)
  | acc, [] => acc
  | acc, comp :: rest =>
    if comp = [] ∨ comp = ['.'] then
      normpathComps iniSlashes acc rest
    else if comp ≠ ['.', '.'] ∨ (iniSlashes = 0 ∧ acc = []) ∨ acc.getLast? = some ['.', '.'] then
      normpathComps iniSlashes (acc ++ [comp]) rest
    else if acc ≠ [] then
      normpathComps iniSlashes acc.dropLast rest
    else
      normpathComps iniSlashes acc rest

/-- `posixpath.normpath` on a character list. -/
def normpath (l : List Char) : List Char :=
  if l = [] then ['.']
  else
    let iniSlashes : Nat :=
      if l.head? = some '/' then
        if l.take 2 = ['/', '/'] ∧ ¬ l.take 3 = ['/', '/', '/'] then 2 else 1
      else 0
    let comps := splitChar '/' l
    let p := List.replicate iniSlashes '/' ++ joinChar '/' (normpathComps iniSlashes [] comps)
    if p = [] then ['.'] else p

/-! ### `SimpleHTTPRequestHandler.translate_path` (http/server.py:829) -/

/-- `os.path.dirname(word)` is nonempty exactly when `word` contains a `'/'`;
this is the test used to drop non-simple components in `translate_path`
(for words produced by `split('/')` it never fires). -/
def dirnameNonempty (w : List Char) : Bool :=
  w.contains '/'

/-- The word filter of `translate_path`'s final loop: a word is kept unless
`os.path.dirname(word)` is nonempty or the word is `os.curdir`/`os.pardir`. -/
def keepWord (w : List Char) : Bool :=
  ¬ (dirnameNonempty w || w == ['.'] || w == ['.', '.'])

/-- The list of path components `translate_path(path)` appends under
`self.directory`: query and fragment are cut, the path is percent-decoded and
normalized, and only simple components are joined onto the root. -/
def translateWords (rawPath : String) : List String :=
  let p := takeUntilChar '#' (takeUntilChar '?' rawPath.data)
  let p := unquoteChars p
  let p := normpath p
  (((splitChar '/' p).filter (fun w => ¬ w = [])).filter keepWord).map
    (fun w => (⟨w⟩ : String))

/-- `trailing_slash` of `translate_path`: whether the raw path (query and
fragment removed, right-stripped) ends with `'/'`; in that case `'/'` is
appended to the translated filesystem path. -/
def translateTrailing (rawPath : String) : Bool :=
  endswithSlash (rstripChars (takeUntilChar '#' (takeUntilChar '?' rawPath.data)))

/-! ### Filesystem model -/

/-- A filesystem entry: a regular file with byte content, or a directory with
named entries. The served tree sits at `DIRECTORY = Path(__file__).parent`. -/
inductive FsEntry where
  | file (content : String)
  | dir (entries : List (String × FsEntry))

/-- Look a name up among a directory's entries. -/
def findEntry (es : List (String × FsEntry)) (name : String) : Option FsEntry :=
  match es with
  | [] => none
  | (n, e) :: rest => if n = name then some e else findEntry rest name

/-- Resolve a component list below an entry. -/
def lookupEntry : List String → FsEntry → Option FsEntry
  | [], e => some e
  | _ :: _, FsEntry.file _ => none
  | w :: ws, FsEntry.dir es =>
    match findEntry es w with
    | some e => lookupEntry ws e
    | none => none

/-- Resolve a component list below the served root; `none` root models a
missing root directory (every resolution fails, as every `os.path.isdir`,
`os.path.isfile` and `open` on paths under it does). -/
def lookupPath : Option FsEntry → List String → Option FsEntry
  | none, _ => none
  | some e, ws => lookupEntry ws e

/-! ### MIME type inference
`SimpleHTTPRequestHandler.guess_type` (http/server.py:875) consults the class
`extensions_map` (the four encoding suffixes), then `mimetypes.guess_type`
(mimetypes.py:103), and finally falls back to `application/octet-stream`. -/

/-- `posixpath.splitext` (genericpath._splitext) restricted to a final path
component (no `'/'` before it): the extension runs from the last dot, unless
every character before that dot is itself a dot (leading dots are ignored). -/
def splitextExt (name : List Char) : List Char :=
  match splitOnce '.' name.reverse with
  | (_, none) => []
  | (extRev, some preRev) =>
    if preRev.any (fun c => c != '.') then '.' :: extRev.reverse else []

/-- `posixpath.splitext` root part, for the same restricted inputs. -/
def splitextBase (name : List Char) : List Char :=
  name.take (name.length - (splitextExt name).length)

/-- Association-list lookup (dict lookup on string keys). -/
def lookupAssoc (m : List (String × String)) (k : String) : Option String :=
  match m with
  | [] => none
  | (a, b) :: rest => if a = k then some b else lookupAssoc rest k

/-- `SimpleHTTPRequestHandler.extensions_map` (= `_encodings_map_default`,
http/server.py:656). -/
def serverExtensionsMap : List (String × String) :=
  [(".gz", "application/gzip"), (".Z", "application/octet-stream"),
   (".bz2", "application/x-bzip2"), (".xz", "application/x-xz")]

/-- `mimetypes`' `suffix_map` default table. -/
def suffixMapDefault : List (String × String) :=
  [(".svgz", ".svg.gz"), (".tgz", ".tar.gz"), (".taz", ".tar.gz"),
   (".tz", ".tar.gz"), (".tbz2", ".tar.bz2"), (".txz", ".tar.xz")]

/-- `mimetypes`' `encodings_map` default table (case sensitive). -/
def mimeEncodingsMap : List (String × String) :=
  [(".gz", "gzip"), (".Z", "compress"), (".bz2", "bzip2"),
   (".xz", "xz"), (".br", "br")]

/-- The entries of CPython 3.11's built-in strict `mimetypes.types_map`
relevant to files a documentation tree can contain (a finite subset of the
interpreter's default table; system mime.types files may extend the real
table, but every lookup is by file extension only). -/
def typesMapDefault : List (String × String) :=
  [(".html", "text/html"), (".htm", "text/html"), (".css", "text/css"),
   (".js", "application/javascript"), (".mjs", "application/javascript"),
   (".json", "application/json"), (".txt", "text/plain"), (".csv", "text/csv"),
   (".png", "image/png"), (".jpg", "image/jpeg"), (".jpeg", "image/jpeg"),
   (".gif", "image/gif"), (".svg", "image/svg+xml"),
   (".ico", "image/vnd.microsoft.icon"), (".pdf", "application/pdf"),
   (".xml", "text/xml"), (".zip", "application/zip"),
   (".tar", "application/x-tar")]

/-- The `while ext.lower() in suffix_map` loop of `mimetypes.guess_type`;
the fuel bound exceeds any chain the finite table can produce. -/
def mimeSuffixLoop : Nat → List Char × List Char → List Char × List Char
  | 0, p => p
  | fuel + 1, (base, ext) =>
    match lookupAssoc suffixMapDefault (lowerStr ⟨ext⟩) with
    | some repl => mimeSuffixLoop fuel (splitextExt (base ++ repl.data) |>
        fun e => (splitextBase (base ++ repl.data), e))
    | none => (base, ext)

/-- `mimetypes.guess_type(path)[0]` (strict mode, the handler's call): apply
the suffix map, strip a recognized encoding suffix, lowercase, and look the
extension up in the strict types table. `none` is Python's `None`. -/
def mimetypesGuessType (name : List Char) : Option String :=
  let p := mimeSuffixLoop 8 (splitextBase name, splitextExt name)
  let p2 :=
    match lookupAssoc mimeEncodingsMap ⟨p.2⟩ with
    | some _ => (splitextBase p.1, splitextExt p.1)
    | none => p
  lookupAssoc typesMapDefault (lowerStr ⟨p2.2⟩)

/-- `SimpleHTTPRequestHandler.guess_type` on the final component of the
translated path (the extension of the full OS path is the extension of its
final component). -/
def guessType (filename : String) : String :=
  let ext : String := ⟨splitextExt filename.data⟩
  match lookupAssoc serverExtensionsMap ext with
  | some t => t
  | none =>
    match lookupAssoc serverExtensionsMap (lowerStr ext) with
    | some t => t
    | none =>
      match mimetypesGuessType filename.data with
      | some t => t
      | none => "application/octet-stream"

/-! ### Requests, responses, `send_head` and method dispatch -/

/-- An HTTP request as the handler sees it after request-line parsing:
`self.command` and `self.path`. -/
structure Request where
  method : String
  path : String
deriving DecidableEq

/-- The responses the handler can produce on the modelled paths:
`200 OK` with file bytes, `200 OK` with headers only (HEAD), `200 OK` with a
generated directory listing, `301 Moved Permanently`, `404 Not Found`
(`send_error(HTTPStatus.NOT_FOUND, "File not found")`), and
`501 Not Implemented` (`send_error(HTTPStatus.NOT_IMPLEMENTED,
"Unsupported method (%r)")` from `handle_one_request`). -/
inductive Response where
  | ok (contentType : String) (body : String)
  | okNoBody (contentType : String)
  | dirListing (names : List String)
  | moved (location : String)
  | notFound
  | notImplemented (method : String)
deriving DecidableEq

/-- Numeric HTTP status of a response. -/
def statusOf : Response → Nat
  | Response.ok _ _ => 200
  | Response.okNoBody _ => 200
  | Response.dirListing _ => 200
  | Response.moved _ => 301
  | Response.notFound => 404
  | Response.notImplemented _ => 501

/-- `urllib.parse.urlsplit(self.path).path`: the request path before the first
query or fragment delimiter (still percent-encoded). -/
def urlPathOf (s : String) : List Char :=
  takeUntilChar '#' (takeUntilChar '?' s.data)

/-- The `Location` header of the directory redirect: `urlunsplit` of the split
request path with `'/'` appended to its path part, keeping query and
fragment. -/
def movedLocation (s : String) : String :=
  let woFrag := splitOnce '#' s.data
  let pathQuery := splitOnce '?' woFrag.1
  ⟨pathQuery.1 ++ ['/'] ++
    (match pathQuery.2 with | some q => '?' :: q | none => []) ++
    (match woFrag.2 with | some f => '#' :: f | none => [])⟩

/-- Lexicographic `≤` on ASCII strings via code points (Python `str` order
restricted to the ASCII names compared here). -/
def leChars : List Char → List Char → Bool
  | [], _ => true
  | _ :: _, [] => false
  | a :: as, b :: bs =>
    if a.toNat < b.toNat then true
    else if b.toNat < a.toNat then false
    else leChars as bs

/-- Stable insertion used by the listing sort. -/
def insertSorted (key : String → String) (a : String) : List String → List String
  | [] => [a]
  | b :: bs =>
    if leChars (key a).data (key b).data then a :: b :: bs
    else b :: insertSorted key a bs

/-- `list.sort(key=lambda a: a.lower())` of `list_directory`
(http/server.py:786). -/
def sortNamesPy (ns : List String) : List String :=
  ns.foldr (insertSorted lowerStr) []

/-- The name of the final translated component (the filename whose extension
`guess_type` sees; for the impossible case of an empty component list the
root directory name itself would be used). -/
def lastWordD (ws : List String) : String :=
  ws.getLastD ""

/-- The index-file probe of `send_head`: `for index in "index.html",
"index.htm": if os.path.isfile(join(path, index)): ...`. -/
def indexFileOf (es : List (String × FsEntry)) : Option (String × String) :=
  match findEntry es "index.html" with
  | some (FsEntry.file c) => some ("index.html", c)
  | _ =>
    match findEntry es "index.htm" with
    | some (FsEntry.file c) => some ("index.htm", c)
    | _ => none

/-- `SimpleHTTPRequestHandler.send_head` (http/server.py:684), with the
response body attached for GET: translate the path; a directory without a
trailing slash in the URL path redirects; a directory with one serves its
index file or a generated listing; otherwise the translated path is opened —
a trailing slash on a non-directory is an explicit 404, a failing `open`
(no such entry, or a path through a file) is a 404. -/
def sendHead (root : Option FsEntry) (rawPath : String) : Response :=
  match lookupPath root (translateWords rawPath) with
  | some (FsEntry.dir es) =>
    if endswithSlash (urlPathOf rawPath) then
      match indexFileOf es with
      | some p => Response.ok (guessType p.1) p.2
      | none => Response.dirListing (sortNamesPy (es.map Prod.fst))
    else
      Response.moved (movedLocation rawPath)
  | some (FsEntry.file c) =>
    if translateTrailing rawPath then Response.notFound
    else Response.ok (guessType (lastWordD (translateWords rawPath))) c
  | none => Response.notFound

/-- `do_HEAD` sends the same status and headers as `do_GET` but copies no
body (http/server.py:678). -/
def headOf : Response → Response
  | Response.ok ct _ => Response.okNoBody ct
  | Response.dirListing _ => Response.okNoBody "text/html; charset=utf-8"
  | r => r

/-- Method dispatch of `BaseHTTPRequestHandler.handle_one_request`
(http/server.py:413): `do_` + command is looked up on the handler class;
`SimpleHTTPRequestHandler` defines exactly `do_GET` and `do_HEAD`, so any
other method is answered `501 Unsupported method`. -/
def handleRequest (root : Option FsEntry) (req : Request) : Response :=
  if req.method = "GET" then sendHead root req.path
  else if req.method = "HEAD" then headOf (sendHead root req.path)
  else Response.notImplemented req.method

/-! ### The server process (`main`, serve_docs.py:18-26) -/

/-- Spec state machine states (the `ShuttingDown` transient is not observable
at the granularity modelled: the final snapshot is one of these). -/
inductive ServerState where
  | created | listening | stopped
deriving DecidableEq

/-- Points at which an external interrupt (Ctrl-C / `KeyboardInterrupt`) can
be delivered to the single-threaded `main`: during the startup `print`,
during `webbrowser.open`, or while blocked in `serve_forever`. Only the last
is inside the `try`. -/
inductive Phase where
  | startupPrint | browserLaunch | serving
deriving DecidableEq

/-- Python exceptions that can escape `main` uncaught. -/
inductive PyExc where
  | addrInUse
  | keyboardInterrupt
deriving DecidableEq

/-- The process environment `main` runs in. `portInUse`: another socket is
already bound to TCP port 8088 (for example a first instance of this same
server). `root`: the filesystem tree at `DIRECTORY` (`none` = the directory
does not exist). `scriptFile`: the path components of the script itself
(`__file__`). `browserOk`: whether `webbrowser.open` finds and starts a
browser (it returns this boolean and raises nothing when no browser is
available). `interrupt`: whether and when a `KeyboardInterrupt` is
delivered. -/
structure Env where
  portInUse : Bool
  root : Option FsEntry
  scriptFile : List String
  browserOk : Bool
  interrupt : Option Phase

/-- `DIRECTORY = Path(__file__).parent` (serve_docs.py:12). -/
def directoryOf (scriptFile : List String) : List String :=
  scriptFile.dropLast

/-- `PORT = 8088` (serve_docs.py:11). -/
def PORT : Nat := 8088

/-- The URL in the startup message and browser call:
`f"http://localhost:{PORT}/swagger.html"`. -/
def urlStr : String :=
  "http://localhost:" ++ toString PORT ++ "/swagger.html"

/-- The startup message printed after the server socket is bound and
listening (serve_docs.py:20). -/
def serveMsg : String :=
  "Serving documentation at " ++ urlStr

/-- The shutdown message printed by the `except KeyboardInterrupt` handler
(serve_docs.py:25). -/
def shutdownMsg : String :=
  "\nShutting down server..."

/-- Observable events of one run of `main`, in order. -/
inductive Ev where
  | bindListen (host : String) (port : Nat)
  | printLine (s : String)
  | browserOpen (url : String) (ok : Bool)
  | acceptLoop
  | serverShutdown
  | serverClose
  | raiseExc (e : PyExc)
deriving DecidableEq

/-- Result of one run of `main` under a given environment. `exit` is the
process exit status (`none` while the accept loop runs forever); CPython
exits 1 on an uncaught exception and re-raises SIGINT on an uncaught
`KeyboardInterrupt`, which the shell reports as 130. -/
structure RunOutcome where
  trace : List Ev
  exit : Option Nat
  traceback : Bool
  uncaught : Option PyExc
  bound : Option (String × Nat)
  servedRoot : List String
  finalState : ServerState
  reachedAcceptLoop : Bool

/-- Lines written to stdout by `print`. -/
def stdoutOf (r : RunOutcome) : List String :=
  r.trace.filterMap fun e =>
    match e with
    | Ev.printLine s => some s
    | _ => none

/-- One run of `main()` (serve_docs.py:18-26).
`TCPServer(("", PORT), Handler)` binds and listens inside its constructor; a
port in use raises `OSError` there, before the `with` body, and nothing in
the script catches it. The body then prints the startup message, fires
`webbrowser.open` ignoring its boolean result, and enters `serve_forever()`.
Only `serve_forever` sits in the `try`: a `KeyboardInterrupt` during either
of the two preceding statements unwinds through the `with` (which closes the
server socket) and kills the process with a traceback; one delivered inside
`serve_forever` is caught, prints the shutdown message, calls
`httpd.shutdown()` and falls off `main`, so the process exits 0. With no
interrupt the accept loop runs forever. The root directory is never checked:
no branch depends on `env.root`. -/
def mainRun (env : Env) : RunOutcome :=
  let served := directoryOf env.scriptFile
  if env.portInUse then
    { trace := [Ev.raiseExc PyExc.addrInUse], exit := some 1, traceback := true,
      uncaught := some PyExc.addrInUse, bound := none, servedRoot := served,
      finalState := ServerState.created, reachedAcceptLoop := false }
  else
    match env.interrupt with
    | some Phase.startupPrint =>
      { trace := [Ev.bindListen "" PORT, Ev.raiseExc PyExc.keyboardInterrupt,
                  Ev.serverClose],
        exit := some 130, traceback := true,
        uncaught := some PyExc.keyboardInterrupt, bound := some ("", PORT),
        servedRoot := served, finalState := ServerState.stopped,
        reachedAcceptLoop := false }
    | some Phase.browserLaunch =>
      { trace := [Ev.bindListen "" PORT, Ev.printLine serveMsg,
                  Ev.raiseExc PyExc.keyboardInterrupt, Ev.serverClose],
        exit := some 130, traceback := true,
        uncaught := some PyExc.keyboardInterrupt, bound := some ("", PORT),
        servedRoot := served, finalState := ServerState.stopped,
        reachedAcceptLoop := false }
    | some Phase.serving =>
      { trace := [Ev.bindListen "" PORT, Ev.printLine serveMsg,
                  Ev.browserOpen urlStr env.browserOk, Ev.acceptLoop,
                  Ev.printLine shutdownMsg, Ev.serverShutdown, Ev.serverClose],
        exit := some 0, traceback := false, uncaught := none,
        bound := some ("", PORT), servedRoot := served,
        finalState := ServerState.stopped, reachedAcceptLoop := true }
    | none =>
      { trace := [Ev.bindListen "" PORT, Ev.printLine serveMsg,
                  Ev.browserOpen urlStr env.browserOk, Ev.acceptLoop],
        exit := none, traceback := false, uncaught := none,
        bound := some ("", PORT), servedRoot := served,
        finalState := ServerState.listening, reachedAcceptLoop := true }

/-- One step of the accept loop: in `listening` the request is dispatched to
the handler and the loop continues in `listening`; the handler holds the
filesystem read-only (`SimpleHTTPRequestHandler` performs no write), so the
tree is returned unchanged. -/
def serverStep (st : ServerState) (fs : Option FsEntry) (req : Request) :
    ServerState × Option FsEntry × Option Response :=
  match st with
  | ServerState.listening => (ServerState.listening, fs, some (handleRequest fs req))
  | s => (s, fs, none)

/-! ### Concrete trees used as witnesses and counterexamples -/

/-- The documentation tree of the concrete spec scenario: the root holds
`swagger.html` with content `<html>OK</html>`. -/
def fsDocs : FsEntry :=
  FsEntry.dir [("swagger.html", FsEntry.file "<html>OK</html>")]

/-- A root holding a file whose name contains a literal `'?'`. -/
def fsQuery : FsEntry :=
  FsEntry.dir [("a?b", FsEntry.file "X")]

/-- An environment in which the root directory does not exist. -/
def envNoRoot : Env :=
  ⟨false, none, ["repo", "docs", "serve_docs.py"], true, none⟩

/-- A plain path segment: a legal filename (nonempty, not `.` or `..`, no
`'/'`) containing no URL-delimiter character (`'?'`, `'#'`, `'%'`) and no
whitespace, so that it can appear verbatim in a request target. -/
def PlainSeg (s : String) : Prop :=
  ¬ s.data = [] ∧ ¬ s.data = ['.'] ∧ ¬ s.data = ['.', '.'] ∧
  ∀ c ∈ s.data, ¬ c = '/' ∧ ¬ c = '?' ∧ ¬ c = '#' ∧ ¬ c = '%' ∧
    isPySpace c = false

instance (s : String) : Decidable (PlainSeg s) := by
  unfold PlainSeg
  infer_instance

/-- The request target naming a relative path: `'/'` followed by the
`'/'`-joined segments. -/
def rawOf (segs : List String) : String :=
  ⟨'/' :: joinChar '/' (segs.map String.data)⟩

/-! ### Containment of served content under the root -/

/-- Resolving one more component below a directory reached from `r`. -/
theorem lookupEntry_append_single :
    ∀ (ws : List String) (r : FsEntry) (es : List (String × FsEntry))
      (n : String) (e : FsEntry),
      lookupEntry ws r = some (FsEntry.dir es) → findEntry es n = some e →
      lookupEntry (ws ++ [n]) r = some e := by
  intro ws
  induction ws with
  | nil =>
    intro r es n e h1 h2
    simp only [lookupEntry, Option.some.injEq] at h1
    subst h1
    simp [lookupEntry, h2]
  | cons w ws ih =>
    intro r es n e h1 h2
    cases r with
    | file c => simp [lookupEntry] at h1
    | dir es0 =>
      simp only [List.cons_append, lookupEntry] at h1 ⊢
      split at h1
      · rename_i e0 hf
        exact ih e0 es n e h1 h2
      · exact absurd h1 (by simp)

/-- A successful index-file probe is a file entry of the directory. -/
theorem indexFileOf_find (es : List (String × FsEntry)) (n c : String)
    (h : indexFileOf es = some (n, c)) :
    findEntry es n = some (FsEntry.file c) := by
  unfold indexFileOf at h
  split at h
  · rename_i c1 hf
    simp only [Option.some.injEq, Prod.mk.injEq] at h
    rw [← h.1, ← h.2]
    exact hf
  · split at h
    · rename_i c2 hf2
      simp only [Option.some.injEq, Prod.mk.injEq] at h
      rw [← h.1, ← h.2]
      exact hf2
    · exact absurd h (by simp)

/-- Any `200 OK` body produced by `send_head` is the content of a file
resolved below the served root. -/
theorem sendHead_ok_from_root (root : Option FsEntry) (raw : String)
    (ct body : String) (h : sendHead root raw = Response.ok ct body) :
    ∃ ws, lookupPath root ws = some (FsEntry.file body) := by
  unfold sendHead at h
  split at h
  · rename_i es heq
    split at h
    · split at h
      · rename_i p hidx
        obtain ⟨n, c⟩ := p
        simp only [Response.ok.injEq] at h
        have hfind := indexFileOf_find es n c hidx
        cases root with
        | none => simp [lookupPath] at heq
        | some r =>
          refine ⟨translateWords raw ++ [n], ?_⟩
          simp only [lookupPath] at heq ⊢
          rw [lookupEntry_append_single (translateWords raw) r es n
                (FsEntry.file c) heq hfind, h.2]
      · exact absurd h (by simp)
    · exact absurd h (by simp)
  · rename_i c heq
    split at h
    · exact absurd h (by simp)
    · simp only [Response.ok.injEq] at h
      exact ⟨translateWords raw, by rw [heq, h.2]⟩
  · exact absurd h (by simp)

/-- `do_HEAD` copies no body, so it never produces a body-carrying `ok`. -/
theorem headOf_ne_ok (r : Response) (ct body : String) :
    headOf r ≠ Response.ok ct body := by
  cases r <;> simp [headOf]

/-- Claim C1 (amended): `handle_request` never returns content of any file
outside the root directory — every `200 OK` body it produces is the content
of a file resolved below the root. The original claim's second half is false
(see the counterexample): a path whose parent-directory segments would
resolve outside the root is not rejected with 404; `'..'` components are
discarded by normalization and the request is served from the resulting
in-root path, with 404 only when that path names nothing. -/
theorem handleRequest_never_escapes_root (root : Option FsEntry) (req : Request)
    (ct body : String) (h : handleRequest root req = Response.ok ct body) :
    ∃ ws, lookupPath root ws = some (FsEntry.file body) := by
  unfold handleRequest at h
  by_cases h1 : req.method = "GET"
  · rw [if_pos h1] at h
    exact sendHead_ok_from_root root req.path ct body h
  · rw [if_neg h1] at h
    by_cases h2 : req.method = "HEAD"
    · rw [if_pos h2] at h
      exact absurd h (headOf_ne_ok _ _ _)
    · rw [if_neg h2] at h
      exact absurd h (by simp)

/-- Claim C1 witness: the containment theorem applied to the concrete
traversal request `GET /../swagger.html` against the documentation tree. -/
theorem handleRequest_never_escapes_root_witness :
    ∃ ws, lookupPath (some fsDocs) ws = some (FsEntry.file "<html>OK</html>") :=
  handleRequest_never_escapes_root (some fsDocs) ⟨"GET", "/../swagger.html"⟩
    "text/html" "<html>OK</html>" rfl

/-- Claim C1 counterexample: the traversal request `GET /../swagger.html`
(parent-directory segment intended to resolve outside the root) is answered
`200 OK` with file content, not with 404 or an equivalent rejection: `..` is
silently dropped, the path resolves to `swagger.html` under the root, and
that file is served. -/
theorem traversal_request_not_rejected :
    handleRequest (some fsDocs) ⟨"GET", "/../swagger.html"⟩ =
      Response.ok "text/html" "<html>OK</html>" ∧
    statusOf (handleRequest (some fsDocs) ⟨"GET", "/../swagger.html"⟩) = 200 := by
  exact ⟨rfl, rfl⟩

/-! ### Missing paths, unsupported methods -/

/-- Claim C3: a request whose translated path resolves to no existing entry
under the root is answered `404 Not Found` (by `send_head`'s failing
`os.path.isdir`/`open`), for GET and HEAD alike, and handling it leaves the
accept loop in `listening` — the per-request error never terminates the
server. -/
theorem missing_path_yields_404 (root : Option FsEntry) (p : String)
    (h : lookupPath root (translateWords p) = none) :
    handleRequest root ⟨"GET", p⟩ = Response.notFound ∧
    handleRequest root ⟨"HEAD", p⟩ = Response.notFound ∧
    statusOf (handleRequest root ⟨"GET", p⟩) = 404 ∧
    (serverStep ServerState.listening root ⟨"GET", p⟩).1 = ServerState.listening := by
  have hs : sendHead root p = Response.notFound := by
    unfold sendHead
    rw [h]
  have hGET : handleRequest root ⟨"GET", p⟩ = Response.notFound := hs
  refine ⟨hGET, ?_, ?_, rfl⟩
  · show headOf (sendHead root p) = Response.notFound
    rw [hs]
    rfl
  · rw [hGET]
    rfl


/-- Claim C3 witness: the concrete spec scenario `GET /does-not-exist.json`
against the documentation tree. -/
theorem missing_path_yields_404_witness :
    handleRequest (some fsDocs) ⟨"GET", "/does-not-exist.json"⟩ = Response.notFound ∧
    handleRequest (some fsDocs) ⟨"HEAD", "/does-not-exist.json"⟩ = Response.notFound ∧
    statusOf (handleRequest (some fsDocs) ⟨"GET", "/does-not-exist.json"⟩) = 404 ∧
    (serverStep ServerState.listening (some fsDocs)
      ⟨"GET", "/does-not-exist.json"⟩).1 = ServerState.listening :=
  missing_path_yields_404 (some fsDocs) "/does-not-exist.json" rfl

/-- Claim C9: a request whose method is neither GET nor HEAD is answered
`501 Unsupported method` (no `do_<METHOD>` attribute exists on the handler),
the loop keeps listening, and no method — this or any other — changes the
served tree: the handler returns the filesystem unmodified for every
request. -/
theorem unsupported_method_answered_501 (root : Option FsEntry) (m p : String)
    (h1 : m ≠ "GET") (h2 : m ≠ "HEAD") :
    handleRequest root ⟨m, p⟩ = Response.notImplemented m ∧
    statusOf (handleRequest root ⟨m, p⟩) = 501 ∧
    serverStep ServerState.listening root ⟨m, p⟩ =
      (ServerState.listening, root, some (Response.notImplemented m)) ∧
    (∀ req : Request, (serverStep ServerState.listening root req).2.1 = root) := by
  have hh : handleRequest root ⟨m, p⟩ = Response.notImplemented m := by
    show (if m = "GET" then sendHead root p
          else if m = "HEAD" then headOf (sendHead root p)
          else Response.notImplemented m) = Response.notImplemented m
    rw [if_neg h1, if_neg h2]
  refine ⟨hh, by rw [hh]; rfl, ?_, fun _ => rfl⟩
  show (ServerState.listening, root, some (handleRequest root ⟨m, p⟩)) =
    (ServerState.listening, root, some (Response.notImplemented m))
  rw [hh]

/-- Claim C9 witness: a `POST` for the documentation page is answered 501 and
leaves the tree untouched. -/
theorem unsupported_method_answered_501_witness :
    handleRequest (some fsDocs) ⟨"POST", "/swagger.html"⟩ =
      Response.notImplemented "POST" ∧
    statusOf (handleRequest (some fsDocs) ⟨"POST", "/swagger.html"⟩) = 501 ∧
    serverStep ServerState.listening (some fsDocs) ⟨"POST", "/swagger.html"⟩ =
      (ServerState.listening, some fsDocs, some (Response.notImplemented "POST")) ∧
    (∀ req : Request,
      (serverStep ServerState.listening (some fsDocs) req).2.1 = some fsDocs) :=
  unsupported_method_answered_501 (some fsDocs) "POST" "/swagger.html"
    (by decide) (by decide)

/-! ### Startup, shutdown and interrupt behavior of `main` -/

/-- Claim C4: a `KeyboardInterrupt` delivered while blocked in
`serve_forever` (the `Listening` state) is caught by the `except` clause:
the server ends in `Stopped`, stdout carries the startup message and then
the clean shutdown message — no traceback — and the process exits with
status 0. -/
theorem interrupt_while_serving_clean_exit
    (root : Option FsEntry) (sf : List String) (b : Bool) :
    (mainRun ⟨false, root, sf, b, some Phase.serving⟩).exit = some 0 ∧
    (mainRun ⟨false, root, sf, b, some Phase.serving⟩).traceback = false ∧
    (mainRun ⟨false, root, sf, b, some Phase.serving⟩).uncaught = none ∧
    stdoutOf (mainRun ⟨false, root, sf, b, some Phase.serving⟩) =
      [serveMsg, shutdownMsg] ∧
    (mainRun ⟨false, root, sf, b, some Phase.serving⟩).finalState =
      ServerState.stopped :=
  ⟨rfl, rfl, rfl, rfl, rfl⟩

/-- Claim C5: with the port already bound by another process (for example a
first instance of this server), `TCPServer(("", PORT), Handler)` raises
`OSError [Errno 98] Address already in use` — the failure the spec's
taxonomy names `BindError` — before the accept loop; nothing catches it, so
the process dies at startup with a traceback and a non-zero exit status. -/
theorem port_in_use_fails_startup
    (root : Option FsEntry) (sf : List String) (b : Bool) (intr : Option Phase) :
    (mainRun ⟨true, root, sf, b, intr⟩).uncaught = some PyExc.addrInUse ∧
    (mainRun ⟨true, root, sf, b, intr⟩).exit = some 1 ∧
    (mainRun ⟨true, root, sf, b, intr⟩).exit ≠ some 0 ∧
    (mainRun ⟨true, root, sf, b, intr⟩).traceback = true ∧
    (mainRun ⟨true, root, sf, b, intr⟩).reachedAcceptLoop = false ∧
    (mainRun ⟨true, root, sf, b, intr⟩).bound = none :=
  ⟨rfl, rfl, by show (some 1 : Option Nat) ≠ some 0; decide, rfl, rfl, rfl⟩

/-- Claim C6 counterexample: with the root directory missing and the port
free, `main` raises nothing and aborts nothing — no code in the script (or in
`TCPServer`/`SimpleHTTPRequestHandler` construction) checks that `DIRECTORY`
exists. The process binds, prints the startup message and enters the accept
loop, contradicting the claimed fatal `ConfigurationError` at startup. -/
theorem missing_root_startup_succeeds :
    (mainRun envNoRoot).uncaught = none ∧
    (mainRun envNoRoot).reachedAcceptLoop = true ∧
    (mainRun envNoRoot).finalState = ServerState.listening ∧
    (mainRun envNoRoot).bound = some ("", 8088) ∧
    stdoutOf (mainRun envNoRoot) = [serveMsg] :=
  ⟨rfl, rfl, rfl, rfl, rfl⟩

/-- Claim C6 (amended): the script never checks that the root directory
exists. If it is missing when start is attempted, startup proceeds normally
— the socket binds, the message is printed and the accept loop runs — and
every GET or HEAD request is then answered `404 Not Found`, because every
path resolution under the missing root fails. -/
theorem missing_root_serves_and_404s (sf : List String) (b : Bool) :
    (mainRun ⟨false, none, sf, b, none⟩).uncaught = none ∧
    (mainRun ⟨false, none, sf, b, none⟩).reachedAcceptLoop = true ∧
    (mainRun ⟨false, none, sf, b, none⟩).finalState = ServerState.listening ∧
    (∀ p : String, handleRequest none ⟨"GET", p⟩ = Response.notFound) ∧
    (∀ p : String, handleRequest none ⟨"HEAD", p⟩ = Response.notFound) := by
  refine ⟨rfl, rfl, rfl, fun p => ?_, fun p => ?_⟩
  · show sendHead none p = Response.notFound
    rfl
  · show headOf (sendHead none p) = Response.notFound
    rfl

/-- Claim C7: `webbrowser.open`'s boolean result is discarded by `main`
(line 21 is a bare expression statement), and a failed launch raises nothing:
whether the browser starts or not, the run's exit status, stdout, traceback,
final state and uncaught exception are identical, and in a normal start the
accept loop runs and requests are served regardless. -/
theorem browser_failure_does_not_abort
    (pu : Bool) (root : Option FsEntry) (sf : List String) (intr : Option Phase) :
    ((mainRun ⟨pu, root, sf, false, intr⟩).exit =
        (mainRun ⟨pu, root, sf, true, intr⟩).exit ∧
      stdoutOf (mainRun ⟨pu, root, sf, false, intr⟩) =
        stdoutOf (mainRun ⟨pu, root, sf, true, intr⟩) ∧
      (mainRun ⟨pu, root, sf, false, intr⟩).traceback =
        (mainRun ⟨pu, root, sf, true, intr⟩).traceback ∧
      (mainRun ⟨pu, root, sf, false, intr⟩).finalState =
        (mainRun ⟨pu, root, sf, true, intr⟩).finalState ∧
      (mainRun ⟨pu, root, sf, false, intr⟩).uncaught =
        (mainRun ⟨pu, root, sf, true, intr⟩).uncaught ∧
      (mainRun ⟨pu, root, sf, false, intr⟩).reachedAcceptLoop =
        (mainRun ⟨pu, root, sf, true, intr⟩).reachedAcceptLoop) ∧
    (mainRun ⟨false, root, sf, false, none⟩).reachedAcceptLoop = true ∧
    (∀ req : Request,
      (serverStep ServerState.listening root req).2.2 =
        some (handleRequest root req)) := by
  refine ⟨?_, rfl, fun _ => rfl⟩
  cases pu
  · cases intr with
    | none => exact ⟨rfl, rfl, rfl, rfl, rfl, rfl⟩
    | some ph => cases ph <;> exact ⟨rfl, rfl, rfl, rfl, rfl, rfl⟩
  · exact ⟨rfl, rfl, rfl, rfl, rfl, rfl⟩

/-- Claim C8: on a successful start the server socket is bound to
`("", 8088)` (all interfaces, the `PORT` constant), the served root is
`DIRECTORY = Path(__file__).parent` — the directory containing the script —
and the full event order is: bind-and-listen first, then the human-readable
message naming the documentation URL, then the browser launch, then the
accept loop. -/
theorem startup_binds_8088_and_prints_url
    (root : Option FsEntry) (sf : List String) (b : Bool) :
    (mainRun ⟨false, root, sf, b, none⟩).bound = some ("", 8088) ∧
    PORT = 8088 ∧
    (mainRun ⟨false, root, sf, b, none⟩).servedRoot = directoryOf sf ∧
    directoryOf sf = sf.dropLast ∧
    serveMsg = "Serving documentation at http://localhost:8088/swagger.html" ∧
    (mainRun ⟨false, root, sf, b, none⟩).trace =
      [Ev.bindListen "" 8088, Ev.printLine serveMsg,
       Ev.browserOpen urlStr b, Ev.acceptLoop] ∧
    stdoutOf (mainRun ⟨false, root, sf, b, none⟩) = [serveMsg] :=
  ⟨rfl, rfl, rfl, rfl, rfl, rfl, rfl⟩

/-- Claim C10: a `KeyboardInterrupt` delivered after the socket is bound but
before `serve_forever` — during the startup print or during the browser
launch — is outside the `try`, so it propagates uncaught: the process dies
with a traceback and exit status 130 (non-zero), the shutdown message is
never printed, and the accept loop is never entered. -/
theorem interrupt_before_loop_is_uncaught
    (root : Option FsEntry) (sf : List String) (b : Bool) :
    ((mainRun ⟨false, root, sf, b, some Phase.startupPrint⟩).uncaught =
        some PyExc.keyboardInterrupt ∧
      (mainRun ⟨false, root, sf, b, some Phase.startupPrint⟩).traceback = true ∧
      (mainRun ⟨false, root, sf, b, some Phase.startupPrint⟩).exit = some 130 ∧
      (mainRun ⟨false, root, sf, b, some Phase.startupPrint⟩).exit ≠ some 0 ∧
      shutdownMsg ∉ stdoutOf (mainRun ⟨false, root, sf, b, some Phase.startupPrint⟩) ∧
      (mainRun ⟨false, root, sf, b, some Phase.startupPrint⟩).reachedAcceptLoop = false) ∧
    ((mainRun ⟨false, root, sf, b, some Phase.browserLaunch⟩).uncaught =
        some PyExc.keyboardInterrupt ∧
      (mainRun ⟨false, root, sf, b, some Phase.browserLaunch⟩).traceback = true ∧
      (mainRun ⟨false, root, sf, b, some Phase.browserLaunch⟩).exit = some 130 ∧
      (mainRun ⟨false, root, sf, b, some Phase.browserLaunch⟩).exit ≠ some 0 ∧
      shutdownMsg ∉ stdoutOf (mainRun ⟨false, root, sf, b, some Phase.browserLaunch⟩) ∧
      (mainRun ⟨false, root, sf, b, some Phase.browserLaunch⟩).reachedAcceptLoop = false) := by
  constructor
  · refine ⟨rfl, rfl, rfl, ?_, ?_, rfl⟩
    · show (some 130 : Option Nat) ≠ some 0
      decide
    · show shutdownMsg ∉ ([] : List String)
      simp
  · refine ⟨rfl, rfl, rfl, ?_, ?_, rfl⟩
    · show (some 130 : Option Nat) ≠ some 0
      decide
    · show shutdownMsg ∉ [serveMsg]
      decide

/-! ### Serving an existing file: supporting lemmas -/

/-- `joinChar` on a list with at least two chunks. -/
theorem joinChar_cons_cons (q : Char) (x y : List Char) (t : List (List Char)) :
    joinChar q (x :: y :: t) = x ++ q :: joinChar q (y :: t) := rfl

/-- A character of a join is the separator or a character of a chunk. -/
theorem mem_joinChar (q : Char) :
    ∀ (ls : List (List Char)) (c : Char),
      c ∈ joinChar q ls → c = q ∨ ∃ w ∈ ls, c ∈ w := by
  intro ls
  induction ls with
  | nil => intro c hc; simp [joinChar] at hc
  | cons x ls ih =>
    intro c hc
    cases ls with
    | nil =>
      right
      exact ⟨x, by simp, by simpa [joinChar] using hc⟩
    | cons y t =>
      rw [joinChar_cons_cons] at hc
      rcases List.mem_append.mp hc with hx | hq
      · right; exact ⟨x, by simp, hx⟩
      · rcases List.mem_cons.mp hq with hcq | hj
        · left; exact hcq
        · rcases ih c hj with h | ⟨w, hw, hcw⟩
          · left; exact h
          · right; exact ⟨w, List.mem_cons_of_mem x hw, hcw⟩

/-- The reverse of a join ending in chunk `w` starts with `w.reverse`. -/
theorem joinChar_reverse_last (q : Char) :
    ∀ (ls : List (List Char)) (w : List Char),
      ∃ r, (joinChar q (ls ++ [w])).reverse = w.reverse ++ r := by
  intro ls
  induction ls with
  | nil => intro w; exact ⟨[], by simp [joinChar]⟩
  | cons x ls ih =>
    intro w
    obtain ⟨r, hr⟩ := ih w
    obtain ⟨y, t, hyt⟩ : ∃ y t, ls ++ [w] = y :: t := by
      cases h : ls ++ [w] with
      | nil => exact absurd h (by simp)
      | cons y t => exact ⟨y, t, rfl⟩
    refine ⟨r ++ q :: x.reverse, ?_⟩
    rw [List.cons_append, hyt, joinChar_cons_cons, ← hyt]
    simp [hr]

/-- Cutting at a character that does not occur is the identity. -/
theorem takeUntilChar_eq_self (q : Char) :
    ∀ l : List Char, (∀ c ∈ l, ¬ c = q) → takeUntilChar q l = l := by
  intro l
  induction l with
  | nil => intro _; rfl
  | cons c cs ih =>
    intro h
    have hc := h c (List.mem_cons_self c cs)
    simp only [takeUntilChar]
    rw [if_neg hc, ih fun x hx => h x (List.mem_cons_of_mem c hx)]

/-- Percent-decoding a string without `'%'` is the identity. -/
theorem unquoteChars_eq_self :
    ∀ l : List Char, (∀ c ∈ l, ¬ c = '%') → unquoteChars l = l := by
  intro l
  induction l with
  | nil => intro _; rfl
  | cons c cs ih =>
    intro h
    have hc := h c (List.mem_cons_self c cs)
    have hrest := ih fun x hx => h x (List.mem_cons_of_mem c hx)
    rw [unquoteChars.eq_def]
    split
    all_goals simp_all

/-- Splitting a chunk free of the separator consumes nothing. -/
theorem splitCharAux_no_sep (q : Char) :
    ∀ w : List Char, (∀ c ∈ w, ¬ c = q) → splitCharAux q w = (w, []) := by
  intro w
  induction w with
  | nil => intro _; rfl
  | cons c cs ih =>
    intro h
    have hc := h c (List.mem_cons_self c cs)
    simp only [splitCharAux]
    rw [ih fun x hx => h x (List.mem_cons_of_mem c hx)]
    simp [hc]

/-- Splitting `x ++ q :: r` with `q`-free `x` yields `x` first and then the
chunks of `r`. -/
theorem splitCharAux_append_sep (q : Char) :
    ∀ (x r : List Char), (∀ c ∈ x, ¬ c = q) →
      splitCharAux q (x ++ q :: r) =
        (x, (splitCharAux q r).1 :: (splitCharAux q r).2) := by
  intro x
  induction x with
  | nil =>
    intro r _
    simp only [List.nil_append, splitCharAux]
    simp
  | cons c x' ih =>
    intro r h
    have hc := h c (List.mem_cons_self c x')
    simp only [List.cons_append, splitCharAux, List.append_eq]
    rw [ih r fun y hy => h y (List.mem_cons_of_mem c hy)]
    simp [hc]

/-- `split` undoes `join` on nonempty chunk lists free of the separator. -/
theorem splitChar_joinChar (q : Char) :
    ∀ ls : List (List Char), ls ≠ [] → (∀ w ∈ ls, ∀ c ∈ w, ¬ c = q) →
      splitChar q (joinChar q ls) = ls := by
  intro ls
  induction ls with
  | nil => intro h _; exact absurd rfl h
  | cons x ls ih =>
    intro _ h
    cases ls with
    | nil =>
      show splitChar q (joinChar q [x]) = [x]
      unfold splitChar
      rw [show joinChar q [x] = x from rfl,
        splitCharAux_no_sep q x (h x (List.mem_cons_self x []))]
    | cons y t =>
      rw [joinChar_cons_cons]
      unfold splitChar
      rw [splitCharAux_append_sep q x (joinChar q (y :: t))
        (h x (List.mem_cons_self x (y :: t)))]
      have hyt := ih (by simp) fun w hw c hc =>
        h w (List.mem_cons_of_mem x hw) c hc
      unfold splitChar at hyt
      show x :: (splitCharAux q (joinChar q (y :: t))).1 ::
        (splitCharAux q (joinChar q (y :: t))).2 = x :: y :: t
      rw [hyt]

/-- The `normpath` component loop appends every plain component and drops
empty ones when no component is `'.'` or `'..'`. -/
theorem normpathComps_plain (i : Nat) :
    ∀ (comps acc : List (List Char)),
      (∀ w ∈ comps, w = [] ∨ (¬ w = ['.'] ∧ ¬ w = ['.', '.'])) →
      normpathComps i acc comps = acc ++ comps.filter (fun w => ¬ w = []) := by
  intro comps
  induction comps with
  | nil => intro acc _; simp [normpathComps]
  | cons w rest ih =>
    intro acc h
    rcases h w (List.mem_cons_self w rest) with hw | ⟨hw1, hw2⟩
    · subst hw
      simp only [normpathComps, if_pos (Or.inl rfl)]
      rw [ih acc fun x hx => h x (List.mem_cons_of_mem _ hx)]
      simp
    · by_cases hwe : w = []
      · subst hwe
        simp only [normpathComps, if_pos (Or.inl rfl)]
        rw [ih acc fun x hx => h x (List.mem_cons_of_mem _ hx)]
        simp
      · have hnd : ¬ (w = [] ∨ w = ['.']) := by
          intro hc
          rcases hc with hc | hc
          · exact hwe hc
          · exact hw1 hc
        simp only [normpathComps, if_neg hnd, if_pos (Or.inl hw2)]
        rw [ih (acc ++ [w]) fun x hx => h x (List.mem_cons_of_mem _ hx)]
        simp [hwe]

/-- Every character of the request target is the separator or a character of
some segment. -/
theorem rawOf_chars (segs : List String) :
    ∀ c ∈ ('/' :: joinChar '/' (segs.map String.data)),
      c = '/' ∨ ∃ s ∈ segs, c ∈ s.data := by
  intro c hc
  rcases List.mem_cons.mp hc with hcs | hj
  · left; exact hcs
  · rcases mem_joinChar '/' _ c hj with h | ⟨w, hw, hcw⟩
    · left; exact h
    · obtain ⟨s, hs, hsw⟩ := List.mem_map.mp hw
      right; exact ⟨s, hs, by rw [hsw]; exact hcw⟩

/-- No `'?'`, `'#'` or `'%'` occurs in the request target of plain
segments. -/
theorem rawOf_no_specials (segs : List String)
    (hplain : ∀ s ∈ segs, PlainSeg s) :
    ∀ c ∈ ('/' :: joinChar '/' (segs.map String.data)),
      ¬ c = '?' ∧ ¬ c = '#' ∧ ¬ c = '%' := by
  intro c hc
  rcases rawOf_chars segs c hc with hcs | ⟨s, hs, hcs⟩
  · subst hcs
    exact ⟨by decide, by decide, by decide⟩
  · obtain ⟨_, h2, h3, h4, _⟩ := (hplain s hs).2.2.2 c hcs
    exact ⟨h2, h3, h4⟩

/-- `normpath` is the identity on an absolute path `'/' :: c0 :: J'` whose
first real character is not a slash and whose components are all plain. -/
theorem normpath_abs_plain (c0 : Char) (J' : List Char) (hc0 : ¬ c0 = '/')
    (hcomps : ∀ w ∈ splitChar '/' ('/' :: c0 :: J'),
      w = [] ∨ (¬ w = ['.'] ∧ ¬ w = ['.', '.']))
    (hjoin : joinChar '/'
        ((splitChar '/' ('/' :: c0 :: J')).filter (fun w => ¬ w = [])) =
      c0 :: J') :
    normpath ('/' :: c0 :: J') = '/' :: c0 :: J' := by
  have h3 : ¬ (('/' :: c0 :: J').take 2 = ['/', '/'] ∧
      ¬ ('/' :: c0 :: J').take 3 = ['/', '/', '/']) := by
    intro hcontra
    have h2 := hcontra.1
    simp only [List.take_succ_cons, List.cons.injEq] at h2
    exact hc0 h2.2.1
  simp only [normpath]
  rw [if_neg (List.cons_ne_nil _ _)]
  rw [if_pos (by simp : ('/' :: c0 :: J').head? = some '/')]
  rw [if_neg h3]
  rw [normpathComps_plain 1 (splitChar '/' ('/' :: c0 :: J')) [] hcomps]
  rw [List.nil_append, hjoin]
  show (if ('/' :: c0 :: J' : List Char) = [] then ['.'] else '/' :: c0 :: J') =
    '/' :: c0 :: J'
  rw [if_neg (List.cons_ne_nil _ _)]

/-- Per-component facts about the data of plain segments. -/
theorem segsData_plain (segs : List String) (hplain : ∀ s ∈ segs, PlainSeg s) :
    ∀ w ∈ segs.map String.data,
      ¬ w = [] ∧ ¬ w = ['.'] ∧ ¬ w = ['.', '.'] ∧ ∀ c ∈ w, ¬ c = '/' := by
  intro w hw
  obtain ⟨s, hs, hsw⟩ := List.mem_map.mp hw
  obtain ⟨p1, p2, p3, p4⟩ := hplain s hs
  subst hsw
  exact ⟨p1, p2, p3, fun c hc => (p4 c hc).1⟩

/-- The join of the data of nonempty plain segments starts with a
non-slash character. -/
theorem joinSegs_shape (segs : List String) (hne : ¬ segs = [])
    (hplain : ∀ s ∈ segs, PlainSeg s) :
    ∃ c0 J', joinChar '/' (segs.map String.data) = c0 :: J' ∧ ¬ c0 = '/' := by
  obtain ⟨s0, segs', hseq⟩ : ∃ s0 segs', segs = s0 :: segs' := by
    cases segs with
    | nil => exact absurd rfl hne
    | cons a b => exact ⟨a, b, rfl⟩
  subst hseq
  have hs0 := hplain s0 (List.mem_cons_self s0 segs')
  obtain ⟨c0, w0', hw0eq⟩ : ∃ c0 w0', s0.data = c0 :: w0' := by
    cases h : s0.data with
    | nil => exact absurd h hs0.1
    | cons a b => exact ⟨a, b, rfl⟩
  have hc0 : ¬ c0 = '/' :=
    (hs0.2.2.2 c0 (by rw [hw0eq]; exact List.mem_cons_self _ _)).1
  cases segs' with
  | nil =>
    refine ⟨c0, w0', ?_, hc0⟩
    show joinChar '/' [s0.data] = c0 :: w0'
    rw [show joinChar '/' [s0.data] = s0.data from rfl, hw0eq]
  | cons s1 t =>
    refine ⟨c0, w0' ++ '/' :: joinChar '/' (s1.data :: t.map String.data),
      ?_, hc0⟩
    show joinChar '/' (s0.data :: s1.data :: t.map String.data) = _
    rw [joinChar_cons_cons, hw0eq]
    rfl

/-- Splitting the request target of plain segments gives the empty leading
chunk and then exactly the segment data. -/
theorem splitChar_rawOf (segs : List String) (hne : ¬ segs = [])
    (hplain : ∀ s ∈ segs, PlainSeg s) :
    splitChar '/' ('/' :: joinChar '/' (segs.map String.data)) =
      [] :: segs.map String.data := by
  have hDne : ¬ segs.map String.data = [] := by
    simp only [List.map_eq_nil_iff]
    exact hne
  have haux : splitCharAux '/' ('/' :: joinChar '/' (segs.map String.data)) =
      ([], (splitCharAux '/' (joinChar '/' (segs.map String.data))).1 ::
        (splitCharAux '/' (joinChar '/' (segs.map String.data))).2) := by
    simp [splitCharAux]
  have hsj : splitChar '/' (joinChar '/' (segs.map String.data)) =
      segs.map String.data :=
    splitChar_joinChar '/' (segs.map String.data) hDne
      (fun w hw c hc => (segsData_plain segs hplain w hw).2.2.2 c hc)
  unfold splitChar at hsj ⊢
  rw [haux]
  show ([] : List Char) ::
    ((splitCharAux '/' (joinChar '/' (segs.map String.data))).1 ::
      (splitCharAux '/' (joinChar '/' (segs.map String.data))).2) =
    [] :: segs.map String.data
  rw [hsj]

/-- Query/fragment cutting leaves the request target of plain segments
unchanged. -/
theorem rawOf_cut (segs : List String) (hplain : ∀ s ∈ segs, PlainSeg s) :
    takeUntilChar '#' (takeUntilChar '?'
      ('/' :: joinChar '/' (segs.map String.data))) =
    '/' :: joinChar '/' (segs.map String.data) := by
  have hnospec := rawOf_no_specials segs hplain
  rw [takeUntilChar_eq_self '?' _ fun c hc => (hnospec c hc).1,
    takeUntilChar_eq_self '#' _ fun c hc => (hnospec c hc).2.1]

/-- `translate_path` maps the request target of nonempty plain segments back
to exactly those segments. -/
theorem translateWords_rawOf (segs : List String) (hne : ¬ segs = [])
    (hplain : ∀ s ∈ segs, PlainSeg s) :
    translateWords (rawOf segs) = segs := by
  obtain ⟨c0, J', hJ, hc0⟩ := joinSegs_shape segs hne hplain
  have hnospec := rawOf_no_specials segs hplain
  have hu : unquoteChars ('/' :: joinChar '/' (segs.map String.data)) =
      '/' :: joinChar '/' (segs.map String.data) :=
    unquoteChars_eq_self _ fun c hc => (hnospec c hc).2.2
  have hsplit' : splitChar '/' ('/' :: c0 :: J') = [] :: segs.map String.data := by
    rw [← hJ]
    exact splitChar_rawOf segs hne hplain
  have hcompsHyp : ∀ w ∈ splitChar '/' ('/' :: c0 :: J'),
      w = [] ∨ (¬ w = ['.'] ∧ ¬ w = ['.', '.']) := by
    rw [hsplit']
    intro w hw
    rcases List.mem_cons.mp hw with hw0 | hwD
    · left; exact hw0
    · right
      obtain ⟨_, h2, h3, _⟩ := segsData_plain segs hplain w hwD
      exact ⟨h2, h3⟩
  have hfilterD : (segs.map String.data).filter (fun w => ¬ w = []) =
      segs.map String.data := by
    rw [List.filter_eq_self]
    intro w hw
    simp [(segsData_plain segs hplain w hw).1]
  have hjoin : joinChar '/'
      ((splitChar '/' ('/' :: c0 :: J')).filter (fun w => ¬ w = [])) =
      c0 :: J' := by
    rw [hsplit']
    rw [show (([] : List Char) :: segs.map String.data).filter
        (fun w => ¬ w = []) =
        (segs.map String.data).filter (fun w => ¬ w = []) from by simp]
    rw [hfilterD]
    exact hJ
  have hnorm := normpath_abs_plain c0 J' hc0 hcompsHyp hjoin
  show (((splitChar '/' (normpath (unquoteChars (takeUntilChar '#'
      (takeUntilChar '?' ('/' :: joinChar '/' (segs.map String.data))))))).filter
      (fun w => ¬ w = [])).filter keepWord).map (fun w => (⟨w⟩ : String)) = segs
  rw [rawOf_cut segs hplain, hu, hJ, hnorm, hsplit']
  rw [show (([] : List Char) :: segs.map String.data).filter
      (fun w => ¬ w = []) =
      (segs.map String.data).filter (fun w => ¬ w = []) from by simp]
  rw [hfilterD]
  have hkeep : (segs.map String.data).filter keepWord = segs.map String.data := by
    rw [List.filter_eq_self]
    intro w hw
    obtain ⟨_, h2, h3, h4⟩ := segsData_plain segs hplain w hw
    have hmem : ¬ ('/' ∈ w) := fun hm => (h4 '/' hm) rfl
    simp [keepWord, dirnameNonempty, h2, h3, hmem]
  rw [hkeep, List.map_map]
  rw [show ((fun w => (⟨w⟩ : String)) ∘ String.data) = id from funext fun s => rfl]
  exact List.map_id segs

/-- The request target of nonempty plain segments has no trailing slash
after right-stripping: its last character is the last character of the last
segment. -/
theorem translateTrailing_rawOf (segs : List String) (hne : ¬ segs = [])
    (hplain : ∀ s ∈ segs, PlainSeg s) :
    translateTrailing (rawOf segs) = false := by
  have hplast : PlainSeg (segs.getLast hne) :=
    hplain _ (List.getLast_mem hne)
  obtain ⟨cl, w'', hwrev⟩ : ∃ cl w'',
      (segs.getLast hne).data.reverse = cl :: w'' := by
    cases h : (segs.getLast hne).data.reverse with
    | nil => exact absurd (by simpa using h) hplast.1
    | cons a b => exact ⟨a, b, rfl⟩
  have hclw : cl ∈ (segs.getLast hne).data := by
    rw [← List.mem_reverse, hwrev]
    exact List.mem_cons_self _ _
  obtain ⟨hclsl, _, _, _, hclsp⟩ := hplast.2.2.2 cl hclw
  have hmapdecomp : segs.map String.data =
      (segs.dropLast).map String.data ++ [(segs.getLast hne).data] := by
    conv_lhs => rw [← List.dropLast_append_getLast hne]
    rw [List.map_append]
    rfl
  obtain ⟨r, hr⟩ := joinChar_reverse_last '/' ((segs.dropLast).map String.data)
    (segs.getLast hne).data
  have hLrev : ('/' :: joinChar '/' (segs.map String.data)).reverse =
      cl :: (w'' ++ (r ++ ['/'])) := by
    rw [List.reverse_cons, hmapdecomp, hr, hwrev]
    simp
  show endswithSlash (rstripChars (takeUntilChar '#' (takeUntilChar '?'
    ('/' :: joinChar '/' (segs.map String.data))))) = false
  rw [rawOf_cut segs hplain]
  unfold rstripChars
  rw [hLrev, List.dropWhile_cons]
  rw [if_neg (by rw [hclsp]; exact Bool.false_ne_true)]
  unfold endswithSlash lastChar?
  rw [List.reverse_reverse]
  simp [hclsl]

/-- Claim C2 (amended): for every regular file under the root whose relative
path consists of plain segments — legal file names free of the URL-delimiter
characters `'?'`, `'#'`, `'%'` and of whitespace — a GET for
`/seg1/.../segn` returns `200 OK`, the body is byte-identical to the file
content, and the MIME type is inferred from the file extension by
`guess_type` (`application/octet-stream` when no table recognizes it).
Names containing URL delimiters must be percent-encoded instead: requested
verbatim they are cut at the delimiter (see the counterexample). -/
theorem existing_file_served_200 (rootDir : FsEntry) (segs : List String)
    (content : String) (hne : ¬ segs = [])
    (hplain : ∀ s ∈ segs, PlainSeg s)
    (hfile : lookupPath (some rootDir) segs = some (FsEntry.file content)) :
    handleRequest (some rootDir) ⟨"GET", rawOf segs⟩ =
      Response.ok (guessType (lastWordD segs)) content ∧
    statusOf (handleRequest (some rootDir) ⟨"GET", rawOf segs⟩) = 200 := by
  have hw := translateWords_rawOf segs hne hplain
  have ht := translateTrailing_rawOf segs hne hplain
  have hsend : sendHead (some rootDir) (rawOf segs) =
      Response.ok (guessType (lastWordD segs)) content := by
    unfold sendHead
    rw [hw, hfile]
    show (if translateTrailing (rawOf segs) = true then Response.notFound
      else Response.ok (guessType (lastWordD segs)) content) =
      Response.ok (guessType (lastWordD segs)) content
    rw [ht]
    rfl
  have hget : handleRequest (some rootDir) ⟨"GET", rawOf segs⟩ =
      sendHead (some rootDir) (rawOf segs) := by
    unfold handleRequest
    rw [if_pos rfl]
  refine ⟨?_, ?_⟩
  · rw [hget]
    exact hsend
  · rw [hget, hsend]
    rfl

/-- Claim C2 witness: the concrete spec scenario — `swagger.html` with body
`<html>OK</html>` is served at `/swagger.html` with MIME type
`text/html`. -/
theorem existing_file_served_200_witness :
    (handleRequest (some fsDocs) ⟨"GET", rawOf ["swagger.html"]⟩ =
      Response.ok (guessType (lastWordD ["swagger.html"])) "<html>OK</html>" ∧
    statusOf (handleRequest (some fsDocs) ⟨"GET", rawOf ["swagger.html"]⟩) =
      200) ∧
    guessType (lastWordD ["swagger.html"]) = "text/html" ∧
    rawOf ["swagger.html"] = "/swagger.html" :=
  ⟨existing_file_served_200 fsDocs ["swagger.html"] "<html>OK</html>"
    (by decide) (by decide) rfl, rfl, rfl⟩

/-- Claim C2 counterexample: the file named `a?b` exists under the root, but
a GET for its verbatim relative path `/a?b` is answered 404, not 200 —
`translate_path` discards everything from the first `'?'` on (query-string
splitting), so the handler looks up `a` instead of `a?b`. The claim as
stated, quantified over every regular file under the root, is therefore
false. -/
theorem file_with_query_char_not_served :
    lookupPath (some fsQuery) ["a?b"] = some (FsEntry.file "X") ∧
    handleRequest (some fsQuery) ⟨"GET", "/a?b"⟩ = Response.notFound ∧
    statusOf (handleRequest (some fsQuery) ⟨"GET", "/a?b"⟩) = 404 :=
  ⟨rfl, rfl, rfl⟩
